import Mathlib

/-!
Verification of the `ape_submodule_workflow` command-line tool
(`src/tools/ape_submodule_workflow.py`).

The tool is an orchestration script: every operation is a synchronous
invocation of the external `git` binary (or of a review-tool CLI).  We embed
it shallowly:

* a `GitResult` is the captured outcome of one external command
  (`subprocess.CompletedProcess`: return code, stdout, stderr);
* the external git binary is modelled as an oracle.  For the read-only
  queries (`status --porcelain`, `rev-parse`) a fixed oracle
  `GitEnv : String → List String → GitResult` suffices; for stateful
  reasoning (branch creation followed by a second run) the oracle is a
  transition system `GitStep W : W → GitCmd → GitResult × W`, with a fixed
  oracle recovered as the instance `oracleStep` whose state never changes;
* functions of the script become Lean functions over the oracle.  Functions
  that issue mutating commands additionally return the list of commands
  they handed to the oracle (their trace), so that claims of the form
  "no git command is executed" are statements about that list;
* `raise WorkflowError msg` becomes `Except.error msg`; catching it at the
  top of `main` becomes a `match` on the `Except`;
* printed output is collected in `Effects` (stdout lines, stderr lines,
  git trace, review-tool invocations).

The `debug` helper of the script only writes to stderr when the verbose
flag is set and influences no control flow; it is not modelled.
-/

namespace Ape

/-- Captured outcome of one external command (`subprocess.CompletedProcess`):
exit status, standard output and standard error. -/
structure GitResult where
  returncode : Int
  stdout : String
  stderr : String
deriving DecidableEq, Repr

/-- One external git invocation: the directory passed to `git -C` and the
argument list. -/
structure GitCmd where
  dir : String
  args : List String
deriving DecidableEq, Repr

/-- Python's `str.strip()`: remove leading and trailing whitespace.
Written by structural recursion on the character list so that concrete
instances evaluate inside the kernel. -/
def pyStrip (s : String) : String :=
  String.mk
    (((s.toList.dropWhile Char.isWhitespace).reverse.dropWhile
        Char.isWhitespace).reverse)

/-- Split a character list at newline characters. -/
def linesAux : List Char → List Char → List (List Char)
  | [], acc => [acc.reverse]
  | c :: cs, acc =>
      if c = '\n' then acc.reverse :: linesAux cs []
      else linesAux cs (c :: acc)

/-- Python's `str.splitlines()` up to trailing blank segments: a trailing
newline produces one extra empty segment here, which every use site removes
again by filtering blank lines. -/
def pyLines (s : String) : List String :=
  (linesAux s.toList []).map String.mk

/-- Does the first list start with the second? -/
def startsWithList : List Char → List Char → Bool
  | _, [] => true
  | [], _ :: _ => false
  | h :: hs, n :: ns => h = n && startsWithList hs ns

/-- Does `hay` contain `needle` as a contiguous sublist?  (Python's
`needle in hay` on strings.) -/
def containsList (needle : List Char) : List Char → Bool
  | [] => startsWithList [] needle
  | c :: rest => startsWithList (c :: rest) needle || containsList needle rest

/-- Python's `str.lower()` (ASCII case folding suffices for the URLs and
tool names involved). -/
def pyLower (s : String) : String :=
  String.mk (s.toList.map Char.toLower)

/-- Python's `str.endswith(suffix)`. -/
def pyEndsWith (s suffix : String) : Bool :=
  startsWithList s.toList.reverse suffix.toList.reverse

/-- Python's `sep.join(items)`. -/
def joinWith (sep : String) : List String → String
  | [] => ""
  | [x] => x
  | x :: y :: rest => x ++ sep ++ joinWith sep (y :: rest)

/-- The characters after the first occurrence of `c`, when any. -/
def afterChar (c : Char) : List Char → Option (List Char)
  | [] => none
  | x :: xs => if x = c then some xs else afterChar c xs

/-- A fixed oracle answering git invocations: read-only view of the world.
`env dir args` is the completed process of `git -C dir args`. -/
abbrev GitEnv := String → List String → GitResult

/-- A stateful oracle for git: running a command yields a result and a new
world state. -/
abbrev GitStep (W : Type) := W → GitCmd → GitResult × W

/-- The fixed oracle seen as a (state-free) transition system. -/
def oracleStep : GitStep GitEnv := fun env c => (env c.dir c.args, env)

/-- `run_git`: execute a git command under a fixed oracle (the `check=False`
variant, which never raises). -/
def run_git (env : GitEnv) (dir : String) (args : List String) : GitResult :=
  env dir args

/-- Diagnostic text attached to a `WorkflowError` raised by `run_git` with
`check=True`: `result.stderr.strip() or result.stdout.strip()`. -/
def diagnostic (r : GitResult) : String :=
  if pyStrip r.stderr ≠ "" then pyStrip r.stderr else pyStrip r.stdout

/-- A single git submodule entry parsed from `.gitmodules`. -/
structure Submodule where
  name : String
  path : String
deriving DecidableEq, Repr

/-- The non-blank lines of a block of text (`str.splitlines()` followed by
the `line.strip()` truthiness filter). -/
def nonblankLines (s : String) : List String :=
  (pyLines s).filter (fun l => pyStrip l ≠ "")

/-- Interpretation of a `git status --porcelain` result as done by
`git_status_lines`: a failing query yields no lines, otherwise the
non-blank stdout lines. -/
def statusLinesOf (r : GitResult) : List String :=
  if r.returncode ≠ 0 then [] else nonblankLines r.stdout

/-- `git_status_lines(path)`: porcelain status lines for `path`; a failing
query (e.g. `path` is not a repository) is treated as producing no lines. -/
def git_status_lines (env : GitEnv) (path : String) : List String :=
  statusLinesOf (run_git env path ["status", "--porcelain"])

/-- `changed_submodules(submodules)`: the entries whose status query yields
at least one non-blank line, in input (manifest) order.  The source's
`include_clean` parameter only widens the verbose debug logging and does not
affect the returned list, so it is not modelled. -/
def changed_submodules (env : GitEnv) : List Submodule → List Submodule
  | [] => []
  | s :: rest =>
      if git_status_lines env s.path ≠ [] then
        s :: changed_submodules env rest
      else
        changed_submodules env rest

/-- Interpretation of a `rev-parse --abbrev-ref HEAD` result as done by
`get_current_branch`: `none` on failure or detached HEAD. -/
def currentBranchOf (r : GitResult) : Option String :=
  if r.returncode ≠ 0 then none
  else if pyStrip r.stdout = "HEAD" then none
  else some (pyStrip r.stdout)

/-- `get_current_branch(path)`: the current branch, or `none` when the
query fails or HEAD is detached. -/
def get_current_branch (env : GitEnv) (path : String) : Option String :=
  currentBranchOf (run_git env path ["rev-parse", "--abbrev-ref", "HEAD"])

/-- The `rev-parse --abbrev-ref HEAD` invocation issued by
`get_current_branch`. -/
def headCmd (path : String) : GitCmd :=
  ⟨path, ["rev-parse", "--abbrev-ref", "HEAD"]⟩

/-- The `rev-parse --verify` ref lookup of `ensure_branch`. -/
def verifyCmd (path branch : String) : GitCmd :=
  ⟨path, ["rev-parse", "--verify", branch]⟩

/-- The `status --porcelain` query of `git_status_lines`. -/
def statusCmd (path : String) : GitCmd :=
  ⟨path, ["status", "--porcelain"]⟩

/-- A plain `checkout` of an existing ref. -/
def checkoutCmd (path b : String) : GitCmd :=
  ⟨path, ["checkout", b]⟩

/-- The `fetch remote base` invocation of `ensure_branch` (unchecked). -/
def fetchCmd (path remote b : String) : GitCmd :=
  ⟨path, ["fetch", remote, b]⟩

/-- The `pull remote base` invocation of `ensure_branch` (unchecked). -/
def pullCmd (path remote b : String) : GitCmd :=
  ⟨path, ["pull", remote, b]⟩

/-- The branch-creating checkout of `ensure_branch`:
`checkout -B branch` under `force`, `checkout -b branch` otherwise. -/
def createCmd (path branch : String) (force : Bool) : GitCmd :=
  ⟨path, ["checkout", if force then "-B" else "-b", branch]⟩

/-- Outcome of `ensure_branch` under a stateful oracle: the returned branch
name or the raised `WorkflowError`, the final world state, and the git
commands issued (in order). -/
structure EnsureOut (W : Type) where
  result : Except String String
  world : W
  trace : List GitCmd
deriving Repr

/-- Final step of `ensure_branch`: the checked `checkout with -B or -b branch`
creating the branch. -/
def finishCreate {W : Type} (step : GitStep W) (w : W) (path branch : String)
    (force : Bool) (t : List GitCmd) : EnsureOut W :=
  let p := step w (createCmd path branch force)
  if p.1.returncode ≠ 0 then
    ⟨.error (diagnostic p.1), p.2, t ++ [createCmd path branch force]⟩
  else
    ⟨.ok branch, p.2, t ++ [createCmd path branch force]⟩

/-- `ensure_branch(path, branch, base, remote, force)` over a stateful git
oracle.  Mirrors the source exactly: look up the current branch; if it is
already `branch`, stop; else if the ref lookup finds `branch`, check it out
(checked); else query the status and, when a non-empty `base` was given and
the tree is clean, fetch the base (unchecked), check it out (checked) and
pull it (unchecked); finally create the branch with a checked
`checkout with -B or -b`.  A non-`None` but empty `base` string is falsy in the
source's `if base and not status`, hence the `b ≠ ""` guard. -/
def ensure_branch {W : Type} (step : GitStep W) (w0 : W) (path branch : String)
    (base : Option String) (remote : String) (force : Bool) : EnsureOut W :=
  let pHead := step w0 (headCmd path)
  if currentBranchOf pHead.1 = some branch then
    ⟨.ok branch, pHead.2, [headCmd path]⟩
  else
    let pVer := step pHead.2 (verifyCmd path branch)
    if pVer.1.returncode = 0 then
      let pCo := step pVer.2 (checkoutCmd path branch)
      if pCo.1.returncode ≠ 0 then
        ⟨.error (diagnostic pCo.1), pCo.2,
          [headCmd path, verifyCmd path branch, checkoutCmd path branch]⟩
      else
        ⟨.ok branch, pCo.2,
          [headCmd path, verifyCmd path branch, checkoutCmd path branch]⟩
    else
      let pSt := step pVer.2 (statusCmd path)
      let t3 := [headCmd path, verifyCmd path branch, statusCmd path]
      match base with
      | some b =>
          if b ≠ "" ∧ statusLinesOf pSt.1 = [] then
            let pFe := step pSt.2 (fetchCmd path remote b)
            let pCoB := step pFe.2 (checkoutCmd path b)
            if pCoB.1.returncode ≠ 0 then
              ⟨.error (diagnostic pCoB.1), pCoB.2,
                t3 ++ [fetchCmd path remote b, checkoutCmd path b]⟩
            else
              let pPu := step pCoB.2 (pullCmd path remote b)
              finishCreate step pPu.2 path branch force
                (t3 ++ [fetchCmd path remote b, checkoutCmd path b,
                        pullCmd path remote b])
          else
            finishCreate step pSt.2 path branch force t3
      | none => finishCreate step pSt.2 path branch force t3

/-- `push_branch`'s argument list: `["push", remote, branch]`, with `-u`
inserted at index 1 when `set_upstream` is set. -/
def pushArgs (remote branch : String) (su : Bool) : List String :=
  if su then ["push", "-u", remote, branch] else ["push", remote, branch]

/-- `push_branch(path, branch, remote, set_upstream)`: one checked push. -/
def push_branch (env : GitEnv) (path branch remote : String) (su : Bool) :
    Except String Unit × List GitCmd :=
  let r := run_git env path (pushArgs remote branch su)
  (if r.returncode ≠ 0 then .error (diagnostic r) else .ok (),
   [⟨path, pushArgs remote branch su⟩])

/-- Which review-tool CLIs `shutil.which` finds on the system path. -/
structure ToolEnv where
  glab : Bool
  gh : Bool
deriving DecidableEq, Repr

/-- Python's substring test `needle in hay`. -/
def hasSub (hay needle : String) : Bool :=
  containsList needle.toList hay.toList

/-- `detect_mr_tool(remote_url)`: choose `glab` or `gh` from the lowercased
remote URL and tool availability, in the source's branch order. -/
def detect_mr_tool (tools : ToolEnv) (remote_url : String) : Option String :=
  let url := pyLower remote_url
  if hasSub url "gitlab" && tools.glab then some "glab"
  else if (hasSub url "github" || pyEndsWith url ".git") && tools.gh then some "gh"
  else if tools.glab then some "glab"
  else if tools.gh then some "gh"
  else none

/-- Observable effects of a (partial) run: stdout lines, stderr lines
(other than the final top-level error report), git commands issued via the
traced mutating paths, and review-tool command lines spawned. -/
structure Effects where
  out : List String
  errOut : List String
  gitTrace : List GitCmd
  extTrace : List (List String)
deriving DecidableEq, Repr

/-- No effects. -/
def Effects.empty : Effects := ⟨[], [], [], []⟩

/-- Sequential composition of effects. -/
def Effects.app (a b : Effects) : Effects :=
  ⟨a.out ++ b.out, a.errOut ++ b.errOut, a.gitTrace ++ b.gitTrace,
   a.extTrace ++ b.extTrace⟩

/-- Effects consisting of stdout lines only. -/
def effOut (l : List String) : Effects := ⟨l, [], [], []⟩

/-- Effects consisting of git commands only. -/
def effGit (t : List GitCmd) : Effects := ⟨[], [], t, []⟩

/-- The stderr suggestion printed when neither review CLI is present. -/
def noCliMsg : String :=
  "No supported CLI (glab or gh) detected. Please create the merge request manually."

/-- Python's `title or branch`: the fallback when `title` is `None` or
empty. -/
def titleOr (title : Option String) (branch : String) : String :=
  match title with
  | some t => if t = "" then branch else t
  | none => branch

/-- The `--title` arguments added under `if title:` (truthy test). -/
def titleArgs (title : Option String) : List String :=
  match title with
  | some t => if t = "" then [] else ["--title", t]
  | none => []

/-- The `glab mr create` command line. -/
def glabCmdLine (branch target : String) (title : Option String)
    (draft : Bool) : List String :=
  ["glab", "mr", "create", "--source-branch", branch, "--target-branch", target]
    ++ titleArgs title ++ (if draft then ["--draft"] else [])

/-- The `gh pr create` command line. -/
def ghCmdLine (branch target : String) (title : Option String)
    (draft : Bool) : List String :=
  ["gh", "pr", "create", "--head", branch, "--base", target]
    ++ titleArgs title ++ (if draft then ["--draft"] else [])

/-- The checked `remote get-url origin` query of `create_merge_request`. -/
def getUrlCmd (path : String) : GitCmd :=
  ⟨path, ["remote", "get-url", "origin"]⟩

/-- `create_merge_request(path, branch, target, title, draft)`.  Reads the
origin URL (checked), picks a review tool; with no tool it prints a manual
suggestion and succeeds; otherwise it spawns the tool (`mrExec` gives the
spawned process's exit code) and fails only on a non-zero tool exit. -/
def create_merge_request (env : GitEnv) (tools : ToolEnv)
    (mrExec : List String → Int) (path branch target : String)
    (title : Option String) (draft : Bool) : Except String Unit × Effects :=
  let r := run_git env path ["remote", "get-url", "origin"]
  if r.returncode ≠ 0 then
    (.error (diagnostic r), ⟨[], [], [getUrlCmd path], []⟩)
  else
    match detect_mr_tool tools (pyStrip r.stdout) with
    | none =>
        (.ok (),
         ⟨["Suggested title: " ++ titleOr title branch], [noCliMsg],
          [getUrlCmd path], []⟩)
    | some tool =>
        let cmd := if tool = "glab" then glabCmdLine branch target title draft
                   else ghCmdLine branch target title draft
        let code := mrExec cmd
        if code ≠ 0 then
          (.error ("Merge request command failed with exit code "
                    ++ toString code ++ "."),
           ⟨[], [], [getUrlCmd path], [cmd]⟩)
        else
          (.ok (), ⟨[], [], [getUrlCmd path], [cmd]⟩)

/-- `update_parent(root, submodules)`: stage each submodule path in the
parent index with a checked `git add`; abort on the first failure. -/
def relativeTo (root p : String) : String :=
  if startsWithList p.toList (root ++ "/").toList then
    String.mk (p.toList.drop ((root ++ "/").toList.length))
  else p

/-- The staging loop of `update_parent`. -/
def update_parent (env : GitEnv) (root : String) :
    List Submodule → Except String Unit × List GitCmd
  | [] => (.ok (), [])
  | m :: rest =>
      let c : GitCmd := ⟨root, ["add", relativeTo root m.path]⟩
      let r := run_git env root c.args
      if r.returncode ≠ 0 then (.error (diagnostic r), [c])
      else
        let o := update_parent env root rest
        (o.1, c :: o.2)

/-- The detached-HEAD error message of `handle_push`. -/
def detachedMsg (name : String) : String :=
  "Submodule " ++ name ++ " is in a detached HEAD state; cannot push without a branch."

/-- The no-branch error message of `handle_mr`. -/
def noBranchMsg (name : String) : String :=
  "Submodule " ++ name ++ " does not have an active branch; create one before opening an MR."

/-- One stdout block of `handle_status` for a single module. -/
def statusEntry (env : GitEnv) (m : Submodule) : List String :=
  let lines := git_status_lines env m.path
  (m.name ++ " (" ++ m.path ++ "):")
    :: (if lines ≠ [] then lines.map (fun l => "  " ++ l) else ["  clean"])

/-- `handle_status`: report the dirty modules (all target modules under
`--include-clean`).  Issues only read-only status queries, so its git trace
is empty. -/
def handle_status (env : GitEnv) (targets : List Submodule)
    (includeClean : Bool) : Except String Unit × Effects :=
  let modules := if includeClean then targets else changed_submodules env targets
  if modules = [] then (.ok (), effOut ["No dirty submodules detected."])
  else (.ok (), effOut (modules.flatMap (statusEntry env)))

/-- The per-module loop of `handle_branch`. -/
def branch_loop (env : GitEnv) (name : String) (base : Option String)
    (remote : String) (force : Bool) :
    List Submodule → Except String Unit × Effects
  | [] => (.ok (), Effects.empty)
  | m :: rest =>
      let o := ensure_branch oracleStep env m.path name base remote force
      match o.result with
      | .error e => (.error e, effGit o.trace)
      | .ok br =>
          let o2 := branch_loop env name base remote force rest
          (o2.1,
           Effects.app
             ⟨["Checked out " ++ br ++ " in " ++ m.name ++ " (" ++ m.path ++ ")."],
              [], o.trace, []⟩
             o2.2)

/-- `handle_branch`: run `ensure_branch` in every dirty target. -/
def handle_branch (env : GitEnv) (targets : List Submodule) (name : String)
    (base : Option String) (remote : String) (force : Bool) :
    Except String Unit × Effects :=
  let modules := changed_submodules env targets
  if modules = [] then
    (.ok (), effOut ["No dirty submodules detected; nothing to branch."])
  else branch_loop env name base remote force modules

/-- The per-module loop of `handle_push`.  The source tests the looked-up
branch with Python truthiness (`if not branch:`), so both `None` and the
empty string raise the detached-HEAD error. -/
def push_loop (env : GitEnv) (remote : String) (su : Bool) :
    List Submodule → Except String Unit × Effects
  | [] => (.ok (), Effects.empty)
  | m :: rest =>
      match get_current_branch env m.path with
      | none => (.error (detachedMsg m.name), effGit [headCmd m.path])
      | some br =>
          if br = "" then (.error (detachedMsg m.name), effGit [headCmd m.path])
          else
          let p := push_branch env m.path br remote su
          match p.1 with
          | .error e => (.error e, effGit (headCmd m.path :: p.2))
          | .ok _ =>
              let o2 := push_loop env remote su rest
              (o2.1,
               Effects.app
                 ⟨["Pushed " ++ m.name ++ " (" ++ m.path ++ ") to "
                     ++ remote ++ "/" ++ br ++ "."],
                  [], headCmd m.path :: p.2, []⟩
                 o2.2)

/-- `handle_push`: push the current branch of every dirty target, failing
on a detached HEAD. -/
def handle_push (env : GitEnv) (targets : List Submodule) (remote : String)
    (su : Bool) : Except String Unit × Effects :=
  let modules := changed_submodules env targets
  if modules = [] then
    (.ok (), effOut ["No dirty submodules detected; nothing to push."])
  else push_loop env remote su modules

/-- The per-module loop of `handle_mr`.  As in `push_loop`, the source
tests the looked-up branch with Python truthiness (`if not branch:`), so
both `None` and the empty string raise the no-active-branch error. -/
def mr_loop (env : GitEnv) (tools : ToolEnv) (mrExec : List String → Int)
    (target : String) (title : Option String) (draft : Bool) :
    List Submodule → Except String Unit × Effects
  | [] => (.ok (), Effects.empty)
  | m :: rest =>
      match get_current_branch env m.path with
      | none => (.error (noBranchMsg m.name), effGit [headCmd m.path])
      | some br =>
          if br = "" then (.error (noBranchMsg m.name), effGit [headCmd m.path])
          else
          let p := create_merge_request env tools mrExec m.path br target title draft
          match p.1 with
          | .error e => (.error e, Effects.app (effGit [headCmd m.path]) p.2)
          | .ok _ =>
              let o2 := mr_loop env tools mrExec target title draft rest
              (o2.1,
               Effects.app
                 (Effects.app (effGit [headCmd m.path])
                   (Effects.app p.2
                     (effOut ["Triggered merge request creation for " ++ m.name
                               ++ " (" ++ br ++ " -> " ++ target ++ ")."])))
                 o2.2)

/-- `handle_mr`: open a merge request for every dirty target. -/
def handle_mr (env : GitEnv) (tools : ToolEnv) (mrExec : List String → Int)
    (targets : List Submodule) (target : String) (title : Option String)
    (draft : Bool) : Except String Unit × Effects :=
  let modules := changed_submodules env targets
  if modules = [] then
    (.ok (), effOut ["No dirty submodules detected; no merge requests created."])
  else mr_loop env tools mrExec target title draft modules

/-- `handle_update_parent`: stage every dirty target in the parent index,
then print one confirmation per module. -/
def handle_update_parent (env : GitEnv) (root : String)
    (targets : List Submodule) : Except String Unit × Effects :=
  let modules := changed_submodules env targets
  if modules = [] then
    (.ok (), effOut ["No dirty submodules detected; nothing to stage in the parent."])
  else
    let o := update_parent env root modules
    match o.1 with
    | .error e => (.error e, effGit o.2)
    | .ok _ =>
        (.ok (),
         ⟨modules.map (fun m =>
            "Staged updated hash for " ++ m.name ++ " ("
              ++ relativeTo root m.path ++ ")."),
          [], o.2, []⟩)

/-- One section of the parsed `.gitmodules` manifest as `configparser`
delivers it: the section header and the value of its `path` key, when
present. -/
structure ManifestSection where
  header : String
  pathValue : Option String
deriving DecidableEq, Repr

/-- Python's `header.split(" ", 1)[-1]`: everything after the first space,
or the whole string when it has no space. -/
def afterFirstSpace (s : String) : String :=
  match afterChar ' ' s.toList with
  | none => s
  | some rest => String.mk rest

/-- Python's `str.strip('"')`: remove leading and trailing double quotes. -/
def stripQuotes (s : String) : String :=
  String.mk
    (((s.toList.dropWhile (fun c => c = '"')).reverse.dropWhile
        (fun c => c = '"')).reverse)

/-- The submodule name derived from a section header:
`section.split(" ", 1)[-1].strip('"')`. -/
def sectionName (header : String) : String :=
  stripQuotes (afterFirstSpace header)

/-- `load_submodules(root)`: one `Submodule` per manifest section carrying a
truthy `path` value, with `root / path` modelled as string concatenation
with a `/` separator. -/
def load_submodules (root : String) (sections : List ManifestSection) :
    List Submodule :=
  sections.filterMap fun s =>
    match s.pathValue with
    | none => none
    | some p =>
        if p = "" then none
        else some ⟨sectionName s.header, root ++ "/" ++ p⟩

/-- The last submodule in the list carrying a given name (`configparser`
order plus Python dict-comprehension semantics: a later binding of the same
name wins). -/
def lookupLast (subs : List Submodule) (n : String) : Option Submodule :=
  (subs.filter (fun s => s.name = n)).getLast?

/-- `resolve_targets(root, submodules, names)`: the full registry when no
(or an empty) name list is given; otherwise fail when any name is unknown,
else the named entries in the order given.  The source's unused `root`
parameter is dropped. -/
def resolve_targets (submodules : List Submodule)
    (names : Option (List String)) : Except String (List Submodule) :=
  match names with
  | none => .ok submodules
  | some ns =>
      if ns = [] then .ok submodules
      else
        let missing := ns.filter (fun n => !(submodules.any (fun s => s.name = n)))
        if missing ≠ [] then
          .error ("Unknown submodule(s): " ++ joinWith ", " missing)
        else
          .ok (ns.filterMap (lookupLast submodules))

/-- The five subcommands with their per-subcommand flags. -/
inductive Command where
  | status : Command
  | branch (name : String) (base : Option String) (remote : String)
      (force : Bool) : Command
  | push (remote : String) (su : Bool) : Command
  | mr (target : String) (title : Option String) (draft : Bool) : Command
  | updateParent : Command
deriving DecidableEq, Repr

/-- The dispatch of `main` over the resolved target set. -/
def dispatch (env : GitEnv) (tools : ToolEnv) (mrExec : List String → Int)
    (root : String) (includeClean : Bool) (targets : List Submodule) :
    Command → Except String Unit × Effects
  | .status => handle_status env targets includeClean
  | .branch n b r f => handle_branch env targets n b r f
  | .push r su => handle_push env targets r su
  | .mr t title draft => handle_mr env tools mrExec targets t title draft
  | .updateParent => handle_update_parent env root targets

/-- The configuration error of `ensure_repo`. -/
def ensureRepoMsg (root : String) : String :=
  "Expected to find a .gitmodules file in " ++ root ++ "; is this the ape repository?"

/-- The body of `main` inside the `try` block.  `hasGitmodules` models the
`(root / ".gitmodules").exists()` check of `ensure_repo`; `sections` is the
parsed manifest. -/
def main_body (env : GitEnv) (tools : ToolEnv) (mrExec : List String → Int)
    (root : String) (hasGitmodules : Bool) (sections : List ManifestSection)
    (includeClean : Bool) (names : Option (List String)) (cmd : Command) :
    Except String Unit × Effects :=
  if ¬ hasGitmodules then (.error (ensureRepoMsg root), Effects.empty)
  else
    let submodules := load_submodules root sections
    if submodules = [] then
      (.ok (), effOut ["No submodules registered in .gitmodules."])
    else
      match resolve_targets submodules names with
      | .error e => (.error e, Effects.empty)
      | .ok targets => dispatch env tools mrExec root includeClean targets cmd

/-- Observable outcome of one whole process run. -/
structure MainOut where
  exit : Nat
  out : List String
  err : List String
  gitTrace : List GitCmd
  extTrace : List (List String)
deriving DecidableEq, Repr

/-- `main`: run the body and catch the single `WorkflowError` at the top,
printing it with an `Error:` prefix on stderr and exiting 1; exit 0
otherwise. -/
def main_run (env : GitEnv) (tools : ToolEnv) (mrExec : List String → Int)
    (root : String) (hasGitmodules : Bool) (sections : List ManifestSection)
    (includeClean : Bool) (names : Option (List String)) (cmd : Command) :
    MainOut :=
  let b := main_body env tools mrExec root hasGitmodules sections includeClean
            names cmd
  match b.1 with
  | .ok _ => ⟨0, b.2.out, b.2.errOut, b.2.gitTrace, b.2.extTrace⟩
  | .error msg =>
      ⟨1, b.2.out, b.2.errOut ++ ["Error: " ++ msg], b.2.gitTrace, b.2.extTrace⟩

/-!  A concrete transition system for the git commands `ensure_branch`
issues, used to reason about two successive runs: the external git binary
is not part of the repository, so its documented behaviour on these
commands is modelled directly.  -/

/-- Abstract git repository state: the local branch names, the checked-out
branch (`none` = detached HEAD), and whether the working tree has
uncommitted changes. -/
structure RepoState where
  branches : List String
  current : Option String
  dirty : Bool
deriving DecidableEq, Repr

/-- Transition system for the git commands used by `ensure_branch`:
`rev-parse --abbrev-ref HEAD` prints the current branch (or `HEAD` when
detached); `rev-parse --verify` succeeds on existing branches;
`status --porcelain` prints a line per change; plain `checkout` moves to an
existing branch; `checkout -b` creates a fresh branch and fails when it
exists; `checkout -B` (re)creates it unconditionally; `fetch` and `pull`
succeed without changing the local branch structure. -/
def gitStep : GitStep RepoState := fun w c =>
  match c.args with
  | ["rev-parse", "--abbrev-ref", "HEAD"] =>
      (⟨0, match w.current with | some b => b | none => "HEAD", ""⟩, w)
  | ["rev-parse", "--verify", b] =>
      if b ∈ w.branches then (⟨0, b, ""⟩, w)
      else (⟨128, "", "fatal: Needed a single revision"⟩, w)
  | ["status", "--porcelain"] =>
      (⟨0, if w.dirty then " M file" else "", ""⟩, w)
  | ["fetch", _, _] => (⟨0, "", ""⟩, w)
  | ["pull", _, _] => (⟨0, "", ""⟩, w)
  | ["checkout", x, b] =>
      if x = "-b" then
        if b ∈ w.branches then
          (⟨128, "", "fatal: a branch named " ++ b ++ " already exists"⟩, w)
        else
          (⟨0, "", ""⟩, { w with branches := b :: w.branches, current := some b })
      else if x = "-B" then
        (⟨0, "", ""⟩,
         { w with
            branches := if b ∈ w.branches then w.branches else b :: w.branches,
            current := some b })
      else (⟨1, "", "unsupported"⟩, w)
  | ["checkout", b] =>
      if b ∈ w.branches then (⟨0, "", ""⟩, { w with current := some b })
      else (⟨1, "", "error: pathspec " ++ b ++ " did not match"⟩, w)
  | _ => (⟨1, "", "unsupported"⟩, w)

end Ape

namespace Ape

theorem changed_submodules_eq_filter (env : GitEnv) (subs : List Submodule) :
    changed_submodules env subs
      = subs.filter (fun s => !(git_status_lines env s.path).isEmpty) := by
  induction subs with
  | nil => rfl
  | cons s rest ih =>
      by_cases h : git_status_lines env s.path = [] <;>
        simp [changed_submodules, h, List.filter_cons, ih]

theorem statusFail_clean (env : GitEnv) (p : String)
    (h : (env p ["status", "--porcelain"]).returncode ≠ 0) :
    git_status_lines env p = [] := by
  simp [git_status_lines, statusLinesOf, run_git, h]

/-- Claim C1: the status scanner classifies an entry clean exactly when its
status query yields zero non-blank lines, a failing status query is treated
as yielding no lines (hence clean), and `changed_submodules` returns exactly
the dirty entries in manifest order (stated as a `filter` of the input
list). -/
theorem changed_submodules_dirty (env : GitEnv) (subs : List Submodule) :
    changed_submodules env subs
        = subs.filter (fun s => !(git_status_lines env s.path).isEmpty)
      ∧ (∀ p, (env p ["status", "--porcelain"]).returncode ≠ 0 →
          git_status_lines env p = [])
      ∧ ∀ s, s ∈ changed_submodules env subs ↔
          s ∈ subs ∧ git_status_lines env s.path ≠ [] := by
  refine ⟨changed_submodules_eq_filter env subs, statusFail_clean env, fun s => ?_⟩
  rw [changed_submodules_eq_filter env subs]
  simp [List.mem_filter]

@[simp] theorem headCmd_dir (p : String) : (headCmd p).dir = p := rfl
@[simp] theorem headCmd_args (p : String) :
    (headCmd p).args = ["rev-parse", "--abbrev-ref", "HEAD"] := rfl
@[simp] theorem verifyCmd_dir (p b : String) : (verifyCmd p b).dir = p := rfl
@[simp] theorem verifyCmd_args (p b : String) :
    (verifyCmd p b).args = ["rev-parse", "--verify", b] := rfl
@[simp] theorem statusCmd_dir (p : String) : (statusCmd p).dir = p := rfl
@[simp] theorem statusCmd_args (p : String) :
    (statusCmd p).args = ["status", "--porcelain"] := rfl
@[simp] theorem checkoutCmd_dir (p b : String) : (checkoutCmd p b).dir = p := rfl
@[simp] theorem checkoutCmd_args (p b : String) :
    (checkoutCmd p b).args = ["checkout", b] := rfl

@[simp] theorem currentBranchOf_env (env : GitEnv) (p : String) :
    currentBranchOf (env p ["rev-parse", "--abbrev-ref", "HEAD"])
      = get_current_branch env p := rfl

@[simp] theorem statusLinesOf_env (env : GitEnv) (p : String) :
    statusLinesOf (env p ["status", "--porcelain"]) = git_status_lines env p := rfl

theorem finishCreate_trace {W : Type} (step : GitStep W) (w : W)
    (path branch : String) (force : Bool) (t : List GitCmd) :
    (finishCreate step w path branch force t).trace
      = t ++ [createCmd path branch force] := by
  simp only [finishCreate]
  split <;> rfl

/-- Claim C2: `ensure_branch` follows exactly the documented case order.
(1) When the current branch already has the requested name the call returns
success having issued only the read-only branch query `headCmd`, so no git
mutation.  (2) Else, when the `rev-parse --verify` lookup succeeds, it
checks that branch out (trace is query, lookup, checkout).  (3) Else, when
a non-empty base was given and the working tree is clean, it fetches the
base, checks it out and pulls it before the branch-creating checkout.
(4) Otherwise it goes straight to the branch-creating checkout, which uses
`-B` under `force` and `-b` otherwise. -/
theorem ensure_branch_case_order (env : GitEnv) (path branch : String)
    (base : Option String) (remote : String) (force : Bool) :
    (get_current_branch env path = some branch →
      ensure_branch oracleStep env path branch base remote force
        = ⟨.ok branch, env, [headCmd path]⟩)
    ∧ (get_current_branch env path ≠ some branch →
      (env path ["rev-parse", "--verify", branch]).returncode = 0 →
      (ensure_branch oracleStep env path branch base remote force).trace
          = [headCmd path, verifyCmd path branch, checkoutCmd path branch]
        ∧ ((env path ["checkout", branch]).returncode = 0 →
            (ensure_branch oracleStep env path branch base remote force).result
              = .ok branch))
    ∧ (∀ b, get_current_branch env path ≠ some branch →
      (env path ["rev-parse", "--verify", branch]).returncode ≠ 0 →
      base = some b → b ≠ "" → git_status_lines env path = [] →
      (env path ["checkout", b]).returncode = 0 →
      (ensure_branch oracleStep env path branch base remote force).trace
        = [headCmd path, verifyCmd path branch, statusCmd path,
           fetchCmd path remote b, checkoutCmd path b, pullCmd path remote b,
           createCmd path branch force])
    ∧ (get_current_branch env path ≠ some branch →
      (env path ["rev-parse", "--verify", branch]).returncode ≠ 0 →
      (∀ b, base = some b → b = "" ∨ git_status_lines env path ≠ []) →
      (ensure_branch oracleStep env path branch base remote force).trace
          = [headCmd path, verifyCmd path branch, statusCmd path,
             createCmd path branch force]
        ∧ createCmd path branch force
            = ⟨path, ["checkout", if force then "-B" else "-b", branch]⟩) := by
  refine ⟨?_, ?_, ?_, ?_⟩
  · intro h
    simp only [ensure_branch, oracleStep, headCmd_dir, headCmd_args,
      currentBranchOf_env, h, if_pos]
  · intro h hv
    simp only [ensure_branch, oracleStep, headCmd_dir, headCmd_args,
      currentBranchOf_env, if_neg h, verifyCmd_dir, verifyCmd_args, hv,
      if_pos, checkoutCmd_dir, checkoutCmd_args]
    refine ⟨by split <;> rfl, fun hco => ?_⟩
    simp [hco]
  · intro b h hv hb hbne hst hco
    subst hb
    simp only [ensure_branch, oracleStep, headCmd_dir, headCmd_args,
      currentBranchOf_env, if_neg h, verifyCmd_dir, verifyCmd_args,
      statusCmd_dir, statusCmd_args, statusLinesOf_env, hst,
      checkoutCmd_dir, checkoutCmd_args, hco]
    rw [if_neg hv, if_pos ⟨hbne, trivial⟩]
    rw [if_neg (by simp : ¬((0 : Int) ≠ 0))]
    rw [finishCreate_trace]
    rfl
  · intro h hv hnb
    refine ⟨?_, rfl⟩
    simp only [ensure_branch, oracleStep, headCmd_dir, headCmd_args,
      currentBranchOf_env, if_neg h, verifyCmd_dir, verifyCmd_args,
      statusCmd_dir, statusCmd_args, statusLinesOf_env]
    rw [if_neg hv]
    match base with
    | none =>
        rw [finishCreate_trace]
        rfl
    | some b =>
        have hd := hnb b rfl
        have hneg : ¬(¬b = "" ∧ git_status_lines env path = []) := by
          rcases hd with h0 | h0
          · exact fun hc => hc.1 h0
          · exact fun hc => h0 hc.2
        dsimp only
        rw [if_neg hneg, finishCreate_trace]
        rfl

theorem finishCreate_checked (env : GitEnv) (path branch : String) (force : Bool)
    (t : List GitCmd)
    (ht : ∀ c ∈ t, c.args.head? = some "checkout" →
      (env c.dir c.args).returncode = 0) :
    (∀ msg, (finishCreate oracleStep env path branch force t).result = .error msg →
      ∃ c, (finishCreate oracleStep env path branch force t).trace.getLast? = some c
        ∧ c.dir = path ∧ c.args.head? = some "checkout"
        ∧ (env c.dir c.args).returncode ≠ 0 ∧ msg = diagnostic (env c.dir c.args))
    ∧ ((finishCreate oracleStep env path branch force t).result = .ok branch →
      ∀ c ∈ (finishCreate oracleStep env path branch force t).trace,
        c.args.head? = some "checkout" → (env c.dir c.args).returncode = 0) := by
  simp only [finishCreate, oracleStep]
  by_cases hc : (env (createCmd path branch force).dir
      (createCmd path branch force).args).returncode ≠ 0
  · rw [if_pos hc]
    constructor
    · intro msg hmsg
      simp only [Except.error.injEq] at hmsg
      refine ⟨createCmd path branch force, ?_, rfl, rfl, hc, hmsg.symm⟩
      simp
    · intro hok
      simp at hok
  · rw [if_neg hc]
    push_neg at hc
    refine ⟨fun msg hmsg => by simp at hmsg, fun _ c hcmem hargs => ?_⟩
    rcases List.mem_append.mp hcmem with hmem | hmem
    · exact ht c hmem hargs
    · simp only [List.mem_singleton] at hmem
      subst hmem
      exact hc

/-- Claim C3, amended: during `ensure_branch`, every CHECKED git command
(the three checkout invocations) that exits non-zero raises the workflow
error carrying that command diagnostic text and aborts the run at that
point (the failing checkout is the last command issued); conversely a
successful run had only succeeding checkouts.  The claim as stated over
every command is false: the `fetch` and `pull` ref-sync commands and the
ref/status queries are invoked with `check=False` and their failures do
not raise (see the counterexample). -/
theorem ensure_branch_checked_fail (env : GitEnv) (path branch : String)
    (base : Option String) (remote : String) (force : Bool) :
    (∀ msg,
      (ensure_branch oracleStep env path branch base remote force).result
          = .error msg →
      ∃ c, (ensure_branch oracleStep env path branch base remote force).trace.getLast?
            = some c
        ∧ c.dir = path ∧ c.args.head? = some "checkout"
        ∧ (env c.dir c.args).returncode ≠ 0
        ∧ msg = diagnostic (env c.dir c.args))
    ∧ ((ensure_branch oracleStep env path branch base remote force).result
          = .ok branch →
      ∀ c ∈ (ensure_branch oracleStep env path branch base remote force).trace,
        c.args.head? = some "checkout" → (env c.dir c.args).returncode = 0) := by
  simp only [ensure_branch, oracleStep, headCmd_dir, headCmd_args,
    currentBranchOf_env, verifyCmd_dir, verifyCmd_args, statusCmd_dir,
    statusCmd_args, statusLinesOf_env, checkoutCmd_dir, checkoutCmd_args]
  by_cases hcur : get_current_branch env path = some branch
  · rw [if_pos hcur]
    refine ⟨fun msg hmsg => by simp at hmsg, fun _ c hc hargs => ?_⟩
    simp only [List.mem_singleton] at hc
    subst hc
    simp [headCmd] at hargs
  · rw [if_neg hcur]
    by_cases hver : (env path ["rev-parse", "--verify", branch]).returncode = 0
    · rw [if_pos hver]
      by_cases hco : (env path ["checkout", branch]).returncode ≠ 0
      · rw [if_pos hco]
        refine ⟨fun msg hmsg => ?_, fun hok => by simp at hok⟩
        simp only [Except.error.injEq] at hmsg
        exact ⟨checkoutCmd path branch, by simp, rfl, rfl, hco, hmsg.symm⟩
      · rw [if_neg hco]
        push_neg at hco
        refine ⟨fun msg hmsg => by simp at hmsg, fun _ c hc hargs => ?_⟩
        simp only [List.mem_cons, List.mem_singleton, List.not_mem_nil,
          or_false] at hc
        rcases hc with hc | hc | hc <;> subst hc
        · simp [headCmd] at hargs
        · simp [verifyCmd] at hargs
        · exact hco
    · rw [if_neg hver]
      have hqok : ∀ c ∈ [headCmd path, verifyCmd path branch, statusCmd path],
          c.args.head? = some "checkout" → (env c.dir c.args).returncode = 0 := by
        intro c hc hargs
        simp only [List.mem_cons, List.not_mem_nil, or_false] at hc
        rcases hc with hc | hc | hc <;> subst hc <;> simp [headCmd, verifyCmd, statusCmd] at hargs
      match base with
      | none => exact finishCreate_checked env path branch force _ hqok
      | some b =>
          dsimp only
          by_cases hcond : ¬b = "" ∧ git_status_lines env path = []
          · rw [if_pos hcond]
            by_cases hcoB : (env path ["checkout", b]).returncode ≠ 0
            · rw [if_pos hcoB]
              refine ⟨fun msg hmsg => ?_, fun hok => by simp at hok⟩
              simp only [Except.error.injEq] at hmsg
              refine ⟨checkoutCmd path b, by simp, rfl, rfl, hcoB, hmsg.symm⟩
            · rw [if_neg hcoB]
              push_neg at hcoB
              refine finishCreate_checked env path branch force _ ?_
              intro c hc hargs
              simp only [List.append_assoc, List.mem_append, List.mem_cons,
                List.not_mem_nil, or_false] at hc
              rcases hc with (hc | hc | hc) | (hc | hc | hc) <;> subst hc
              · simp [headCmd] at hargs
              · simp [verifyCmd] at hargs
              · simp [statusCmd] at hargs
              · simp [fetchCmd] at hargs
              · exact hcoB
              · simp [pullCmd] at hargs
          · rw [if_neg hcond]
            exact finishCreate_checked env path branch force _ hqok

theorem ensure_branch_trace_dirs {W : Type} (step : GitStep W) (w : W)
    (path branch : String) (base : Option String) (remote : String)
    (force : Bool) :
    ∀ c ∈ (ensure_branch step w path branch base remote force).trace,
      c.dir = path := by
  intro c hc
  unfold ensure_branch at hc
  rcases base with _ | b
  · dsimp only at hc
    split at hc
    · simp only [List.mem_singleton] at hc
      subst hc; rfl
    · split at hc
      · split at hc <;>
          · simp only [List.mem_cons, List.not_mem_nil, or_false] at hc
            rcases hc with hc | hc | hc <;> subst hc <;> rfl
      · rw [finishCreate_trace] at hc
        simp only [List.mem_append, List.mem_cons, List.not_mem_nil,
          or_false] at hc
        rcases hc with (hc | hc | hc) | hc <;> subst hc <;> rfl
  · dsimp only at hc
    split at hc
    · simp only [List.mem_singleton] at hc
      subst hc; rfl
    · split at hc
      · split at hc <;>
          · simp only [List.mem_cons, List.not_mem_nil, or_false] at hc
            rcases hc with hc | hc | hc <;> subst hc <;> rfl
      · split at hc
        · split at hc
          · simp only [List.append_assoc, List.mem_append, List.mem_cons,
              List.not_mem_nil, or_false] at hc
            rcases hc with (hc | hc | hc) | (hc | hc) <;> subst hc <;> rfl
          · rw [finishCreate_trace] at hc
            simp only [List.append_assoc, List.mem_append, List.mem_cons,
              List.not_mem_nil, or_false] at hc
            rcases hc with (hc | hc | hc) | (hc | hc | hc) | hc <;>
              subst hc <;> rfl
        · rw [finishCreate_trace] at hc
          simp only [List.mem_append, List.mem_cons, List.not_mem_nil,
            or_false] at hc
          rcases hc with (hc | hc | hc) | hc <;> subst hc <;> rfl

@[simp] theorem Effects_empty_out : Effects.empty.out = [] := rfl
@[simp] theorem Effects_empty_errOut : Effects.empty.errOut = [] := rfl
@[simp] theorem Effects_empty_gitTrace : Effects.empty.gitTrace = [] := rfl
@[simp] theorem Effects_empty_extTrace : Effects.empty.extTrace = [] := rfl
@[simp] theorem Effects_app_out (a b : Effects) :
    (Effects.app a b).out = a.out ++ b.out := rfl
@[simp] theorem Effects_app_errOut (a b : Effects) :
    (Effects.app a b).errOut = a.errOut ++ b.errOut := rfl
@[simp] theorem Effects_app_gitTrace (a b : Effects) :
    (Effects.app a b).gitTrace = a.gitTrace ++ b.gitTrace := rfl
@[simp] theorem Effects_app_extTrace (a b : Effects) :
    (Effects.app a b).extTrace = a.extTrace ++ b.extTrace := rfl
@[simp] theorem effOut_out (l : List String) : (effOut l).out = l := rfl
@[simp] theorem effOut_errOut (l : List String) : (effOut l).errOut = [] := rfl
@[simp] theorem effOut_gitTrace (l : List String) : (effOut l).gitTrace = [] := rfl
@[simp] theorem effOut_extTrace (l : List String) : (effOut l).extTrace = [] := rfl
@[simp] theorem effGit_out (t : List GitCmd) : (effGit t).out = [] := rfl
@[simp] theorem effGit_errOut (t : List GitCmd) : (effGit t).errOut = [] := rfl
@[simp] theorem effGit_gitTrace (t : List GitCmd) : (effGit t).gitTrace = t := rfl
@[simp] theorem effGit_extTrace (t : List GitCmd) : (effGit t).extTrace = [] := rfl

theorem mem_changed_dirty (env : GitEnv) (l : List Submodule) (x : Submodule)
    (hx : x ∈ changed_submodules env l) : git_status_lines env x.path ≠ [] := by
  induction l with
  | nil => simp [changed_submodules] at hx
  | cons s rest ih =>
      by_cases h : git_status_lines env s.path = []
      · rw [changed_submodules, if_neg (by simp [h])] at hx
        exact ih hx
      · rw [changed_submodules, if_pos h] at hx
        rcases List.mem_cons.mp hx with hx | hx
        · subst hx; exact h
        · exact ih hx

theorem mem_changed_of_mem (env : GitEnv) (l : List Submodule) (x : Submodule)
    (hx : x ∈ changed_submodules env l) : x ∈ l := by
  induction l with
  | nil => simp [changed_submodules] at hx
  | cons s rest ih =>
      by_cases h : git_status_lines env s.path = []
      · rw [changed_submodules, if_neg (by simp [h])] at hx
        exact List.mem_cons_of_mem s (ih hx)
      · rw [changed_submodules, if_pos h] at hx
        rcases List.mem_cons.mp hx with hx | hx
        · subst hx; exact List.mem_cons_self x rest
        · exact List.mem_cons_of_mem s (ih hx)

@[simp] theorem push_branch_trace (env : GitEnv) (path branch remote : String)
    (su : Bool) :
    (push_branch env path branch remote su).2
      = [⟨path, pushArgs remote branch su⟩] := rfl

theorem branch_loop_trace (env : GitEnv) (name : String) (base : Option String)
    (remote : String) (force : Bool) (l : List Submodule) :
    ∀ c ∈ (branch_loop env name base remote force l).2.gitTrace,
      ∃ x ∈ l, c.dir = x.path := by
  induction l with
  | nil => simp [branch_loop]
  | cons m rest ih =>
      intro c hc
      rcases hres : (ensure_branch oracleStep env m.path name base remote force).result
        with e | br <;> simp only [branch_loop, hres] at hc
      · exact ⟨m, List.mem_cons_self m rest,
          ensure_branch_trace_dirs oracleStep env m.path name base remote force c
            (by simpa using hc)⟩
      · simp only [Effects_app_gitTrace, effGit_gitTrace, List.mem_append] at hc
        rcases hc with hc | hc
        · exact ⟨m, List.mem_cons_self m rest,
            ensure_branch_trace_dirs oracleStep env m.path name base remote force c
              (by simpa using hc)⟩
        · obtain ⟨x, hx, hdir⟩ := ih c hc
          exact ⟨x, List.mem_cons_of_mem m hx, hdir⟩

theorem push_loop_trace (env : GitEnv) (remote : String) (su : Bool)
    (l : List Submodule) :
    ∀ c ∈ (push_loop env remote su l).2.gitTrace, ∃ x ∈ l, c.dir = x.path := by
  induction l with
  | nil => simp [push_loop]
  | cons m rest ih =>
      intro c hc
      rcases hbr : get_current_branch env m.path with _ | br <;>
        simp only [push_loop, hbr] at hc
      · simp only [effGit_gitTrace, List.mem_singleton] at hc
        exact ⟨m, List.mem_cons_self m rest, by subst hc; rfl⟩
      · by_cases hbe : br = ""
        · rw [if_pos hbe] at hc
          simp only [effGit_gitTrace, List.mem_singleton] at hc
          exact ⟨m, List.mem_cons_self m rest, by subst hc; rfl⟩
        · rw [if_neg hbe] at hc
          rcases hres : (push_branch env m.path br remote su).1 with e | u <;>
            simp only [hres] at hc
          · simp only [effGit_gitTrace, push_branch_trace, List.mem_cons,
              List.not_mem_nil, or_false] at hc
            rcases hc with hc | hc <;>
              exact ⟨m, List.mem_cons_self m rest, by subst hc; rfl⟩
          · simp only [Effects_app_gitTrace, effGit_gitTrace, push_branch_trace,
              List.mem_append, List.mem_cons, List.not_mem_nil, or_false] at hc
            rcases hc with (hc | hc) | hc
            · exact ⟨m, List.mem_cons_self m rest, by subst hc; rfl⟩
            · exact ⟨m, List.mem_cons_self m rest, by subst hc; rfl⟩
            · obtain ⟨x, hx, hdir⟩ := ih c hc
              exact ⟨x, List.mem_cons_of_mem m hx, hdir⟩

theorem create_merge_request_gitTrace (env : GitEnv) (tools : ToolEnv)
    (mrExec : List String → Int) (path branch target : String)
    (title : Option String) (draft : Bool) :
    (create_merge_request env tools mrExec path branch target title draft).2.gitTrace
      = [getUrlCmd path] := by
  unfold create_merge_request
  dsimp only
  split
  · rfl
  · split
    · rfl
    · split <;> split <;> rfl

theorem mr_loop_trace (env : GitEnv) (tools : ToolEnv)
    (mrExec : List String → Int) (target : String) (title : Option String)
    (draft : Bool) (l : List Submodule) :
    ∀ c ∈ (mr_loop env tools mrExec target title draft l).2.gitTrace,
      ∃ x ∈ l, c.dir = x.path := by
  induction l with
  | nil => simp [mr_loop]
  | cons m rest ih =>
      intro c hc
      rcases hbr : get_current_branch env m.path with _ | br <;>
        simp only [mr_loop, hbr] at hc
      · simp only [effGit_gitTrace, List.mem_singleton] at hc
        exact ⟨m, List.mem_cons_self m rest, by subst hc; rfl⟩
      · by_cases hbe : br = ""
        · rw [if_pos hbe] at hc
          simp only [effGit_gitTrace, List.mem_singleton] at hc
          exact ⟨m, List.mem_cons_self m rest, by subst hc; rfl⟩
        · rw [if_neg hbe] at hc
          rcases hres : (create_merge_request env tools mrExec m.path br target title draft).1
            with e | u <;> simp only [hres] at hc <;>
            simp only [Effects_app_gitTrace, effGit_gitTrace, effOut_gitTrace,
              create_merge_request_gitTrace, List.mem_append, List.mem_cons,
              List.not_mem_nil, or_false, List.append_nil] at hc
          · rcases hc with hc | hc <;>
              exact ⟨m, List.mem_cons_self m rest, by subst hc; rfl⟩
          · rcases hc with (hc | hc) | hc
            · exact ⟨m, List.mem_cons_self m rest, by subst hc; rfl⟩
            · exact ⟨m, List.mem_cons_self m rest, by subst hc; rfl⟩
            · obtain ⟨x, hx, hdir⟩ := ih c hc
              exact ⟨x, List.mem_cons_of_mem m hx, hdir⟩

theorem update_parent_trace (env : GitEnv) (root : String)
    (l : List Submodule) :
    ∀ c ∈ (update_parent env root l).2,
      ∃ x ∈ l, c = ⟨root, ["add", relativeTo root x.path]⟩ := by
  induction l with
  | nil => simp [update_parent]
  | cons m rest ih =>
      intro c hc
      simp only [update_parent] at hc
      split at hc
      · simp only [List.mem_singleton] at hc
        exact ⟨m, List.mem_cons_self m rest, hc⟩
      · rcases List.mem_cons.mp hc with hc | hc
        · exact ⟨m, List.mem_cons_self m rest, hc⟩
        · obtain ⟨x, hx, heq⟩ := ih c hc
          exact ⟨x, List.mem_cons_of_mem m hx, heq⟩

/-- Claim C5: an explicitly named but clean submodule is silently skipped
by the branch, push, mr and update-parent subcommands.  A clean member of
the target set is not in the dirty set the handlers iterate over, no
command of the branch/push/mr handlers runs in its directory, and every
staging command of update-parent belongs to a dirty module. -/
theorem handlers_touch_only_dirty (env : GitEnv) (tools : ToolEnv)
    (mrExec : List String → Int) (root : String) (targets : List Submodule)
    (name : String) (base : Option String) (remote : String)
    (force su draft : Bool) (mrTarget : String) (title : Option String)
    (m : Submodule) (_hmem : m ∈ targets)
    (hclean : git_status_lines env m.path = []) :
    m ∉ changed_submodules env targets
    ∧ (∀ c ∈ (handle_branch env targets name base remote force).2.gitTrace,
        c.dir ≠ m.path)
    ∧ (∀ c ∈ (handle_push env targets remote su).2.gitTrace, c.dir ≠ m.path)
    ∧ (∀ c ∈ (handle_mr env tools mrExec targets mrTarget title draft).2.gitTrace,
        c.dir ≠ m.path)
    ∧ (∀ c ∈ (handle_update_parent env root targets).2.gitTrace,
        ∃ x ∈ changed_submodules env targets,
          git_status_lines env x.path ≠ []
          ∧ c = ⟨root, ["add", relativeTo root x.path]⟩) := by
  have hpath : ∀ x ∈ changed_submodules env targets, x.path ≠ m.path := by
    intro x hx heq
    exact mem_changed_dirty env targets x hx (heq ▸ hclean)
  refine ⟨fun hm => mem_changed_dirty env targets m hm hclean, ?_, ?_, ?_, ?_⟩
  · intro c hc
    unfold handle_branch at hc
    dsimp only at hc
    split at hc
    · simp at hc
    · obtain ⟨x, hx, hdir⟩ := branch_loop_trace env name base remote force _ c hc
      rw [hdir]
      exact hpath x hx
  · intro c hc
    unfold handle_push at hc
    dsimp only at hc
    split at hc
    · simp at hc
    · obtain ⟨x, hx, hdir⟩ := push_loop_trace env remote su _ c hc
      rw [hdir]
      exact hpath x hx
  · intro c hc
    unfold handle_mr at hc
    dsimp only at hc
    split at hc
    · simp at hc
    · obtain ⟨x, hx, hdir⟩ := mr_loop_trace env tools mrExec mrTarget title draft _ c hc
      rw [hdir]
      exact hpath x hx
  · intro c hc
    unfold handle_update_parent at hc
    dsimp only at hc
    split at hc
    · simp at hc
    · rcases hres : (update_parent env root (changed_submodules env targets)).1
        with e | u <;> simp only [hres] at hc
      · simp only [effGit_gitTrace] at hc
        obtain ⟨x, hx, heq⟩ := update_parent_trace env root _ c hc
        exact ⟨x, hx, mem_changed_dirty env targets x hx, heq⟩
      · obtain ⟨x, hx, heq⟩ := update_parent_trace env root _ c hc
        exact ⟨x, hx, mem_changed_dirty env targets x hx, heq⟩

theorem push_loop_detached (env : GitEnv) (remote : String) (su : Bool)
    (post : List Submodule) (m : Submodule)
    (hm : get_current_branch env m.path = none) :
    ∀ pre : List Submodule,
      (∀ x ∈ pre, ∃ br, get_current_branch env x.path = some br ∧ br ≠ ""
        ∧ (env x.path (pushArgs remote br su)).returncode = 0) →
      (push_loop env remote su (pre ++ m :: post)).1
          = .error (detachedMsg m.name)
      ∧ (push_loop env remote su (pre ++ m :: post)).2.gitTrace
          = pre.flatMap (fun x =>
              [headCmd x.path,
               ⟨x.path, pushArgs remote ((get_current_branch env x.path).getD "") su⟩])
            ++ [headCmd m.path] := by
  intro pre
  induction pre with
  | nil =>
      intro _
      simp only [List.nil_append, push_loop, hm]
      exact ⟨trivial, by simp⟩
  | cons x pre ih =>
      intro hpre
      obtain ⟨br, hbr, hbe, hok⟩ := hpre x (List.mem_cons_self x pre)
      have ihr := ih (fun y hy => hpre y (List.mem_cons_of_mem x hy))
      have hp1 : (push_branch env x.path br remote su).1 = .ok () := by
        simp [push_branch, run_git, hok]
      simp only [List.cons_append, push_loop, hbr]
      rw [if_neg hbe]
      simp only [hp1]
      refine ⟨ihr.1, ?_⟩
      have htr := ihr.2
      simp only [List.append_eq] at htr ⊢
      simp only [Effects_app_gitTrace, push_branch_trace, List.flatMap_cons,
        hbr, Option.getD_some, List.append_assoc, htr]

/-- Claim C6: when the push subcommand reaches a detached-HEAD target (all
dirty targets before it being on a non-empty branch and having pushed
successfully — Python truthiness also raises on an empty branch name), the
whole run fails with the workflow error naming that target, and the git
trace ends with that target branch query: no push is attempted for it or
for any target still pending after it. -/
theorem push_detached_aborts (env : GitEnv) (targets : List Submodule)
    (remote : String) (su : Bool) (pre post : List Submodule) (m : Submodule)
    (hsplit : changed_submodules env targets = pre ++ m :: post)
    (hpre : ∀ x ∈ pre, ∃ br, get_current_branch env x.path = some br ∧ br ≠ ""
        ∧ (env x.path (pushArgs remote br su)).returncode = 0)
    (hm : get_current_branch env m.path = none) :
    (handle_push env targets remote su).1 = .error (detachedMsg m.name)
    ∧ (handle_push env targets remote su).2.gitTrace
        = pre.flatMap (fun x =>
            [headCmd x.path,
             ⟨x.path, pushArgs remote ((get_current_branch env x.path).getD "") su⟩])
          ++ [headCmd m.path] := by
  have hne : changed_submodules env targets ≠ [] := by
    rw [hsplit]; simp
  unfold handle_push
  dsimp only
  rw [if_neg hne, hsplit]
  exact push_loop_detached env remote su post m hm pre hpre

/-- Claim C7: merge-request tool selection.  A `gitlab` URL with `glab`
installed selects `glab`; a `github` URL (without the `gitlab` substring)
with `gh` installed selects `gh`; when only one tool is installed it falls
back to that tool whatever the URL; when both are installed some installed
tool is selected; with neither installed detection yields nothing and
`create_merge_request` prints the manual-action suggestion and returns
success rather than raising. -/
theorem mr_tool_selection (env : GitEnv) (tools : ToolEnv)
    (mrExec : List String → Int) (url path branch target : String)
    (title : Option String) (draft : Bool) :
    (hasSub (pyLower url) "gitlab" = true → tools.glab = true →
      detect_mr_tool tools url = some "glab")
    ∧ (hasSub (pyLower url) "github" = true →
      hasSub (pyLower url) "gitlab" = false → tools.gh = true →
      detect_mr_tool tools url = some "gh")
    ∧ (tools.glab = true → tools.gh = false →
      detect_mr_tool tools url = some "glab")
    ∧ (tools.gh = true → tools.glab = false →
      detect_mr_tool tools url = some "gh")
    ∧ ((tools.glab || tools.gh) = true → ∃ t, detect_mr_tool tools url = some t
        ∧ ((t = "glab" ∧ tools.glab = true) ∨ (t = "gh" ∧ tools.gh = true)))
    ∧ (tools.glab = false → tools.gh = false → detect_mr_tool tools url = none)
    ∧ (tools.glab = false → tools.gh = false →
      (env path ["remote", "get-url", "origin"]).returncode = 0 →
      create_merge_request env tools mrExec path branch target title draft
        = (.ok (),
           ⟨["Suggested title: " ++ titleOr title branch], [noCliMsg],
            [getUrlCmd path], []⟩)) := by
  have hnone : tools.glab = false → tools.gh = false →
      ∀ u, detect_mr_tool tools u = none := by
    intro h1 h2 u
    simp [detect_mr_tool, h1, h2]
  refine ⟨?_, ?_, ?_, ?_, ?_, fun a b => hnone a b url, ?_⟩
  · intro h1 h2
    simp [detect_mr_tool, h1, h2]
  · intro h1 h2 h3
    simp [detect_mr_tool, h1, h2, h3]
  · intro h1 h2
    cases h : hasSub (pyLower url) "gitlab" <;> simp [detect_mr_tool, h, h1, h2]
  · intro h1 h2
    cases h : hasSub (pyLower url) "gitlab" <;>
      cases h3 : hasSub (pyLower url) "github" <;>
        cases h4 : pyEndsWith (pyLower url) ".git" <;>
          simp [detect_mr_tool, h, h1, h2, h3, h4]
  · intro h
    cases hg : tools.glab <;> cases hh : tools.gh
    · rw [hg, hh] at h; simp at h
    · exact ⟨"gh", by
        cases h3 : hasSub (pyLower url) "gitlab" <;>
          cases h4 : hasSub (pyLower url) "github" <;>
            cases h5 : pyEndsWith (pyLower url) ".git" <;>
              simp [detect_mr_tool, hg, hh, h3, h4, h5], Or.inr ⟨rfl, rfl⟩⟩
    · exact ⟨"glab", by
        cases h3 : hasSub (pyLower url) "gitlab" <;>
          simp [detect_mr_tool, hg, hh, h3], Or.inl ⟨rfl, rfl⟩⟩
    · cases h3 : hasSub (pyLower url) "gitlab"
      · cases h4 : hasSub (pyLower url) "github"
        · cases h5 : pyEndsWith (pyLower url) ".git"
          · exact ⟨"glab", by simp [detect_mr_tool, hg, hh, h3, h4, h5],
              Or.inl ⟨rfl, rfl⟩⟩
          · exact ⟨"gh", by simp [detect_mr_tool, hg, hh, h3, h4, h5],
              Or.inr ⟨rfl, rfl⟩⟩
        · exact ⟨"gh", by
            cases h5 : pyEndsWith (pyLower url) ".git" <;>
              simp [detect_mr_tool, hg, hh, h3, h4, h5],
            Or.inr ⟨rfl, rfl⟩⟩
      · exact ⟨"glab", by simp [detect_mr_tool, hg, h3], Or.inl ⟨rfl, rfl⟩⟩
  · intro h1 h2 h3
    unfold create_merge_request
    rw [if_neg (by simp [run_git, h3])]
    rw [hnone h1 h2]

theorem branch_loop_errOut (env : GitEnv) (name : String) (base : Option String)
    (remote : String) (force : Bool) (l : List Submodule) :
    (branch_loop env name base remote force l).2.errOut = [] := by
  induction l with
  | nil => rfl
  | cons m rest ih =>
      rcases hres : (ensure_branch oracleStep env m.path name base remote force).result
        with e | br <;> simp [branch_loop, hres, ih]

theorem push_loop_errOut (env : GitEnv) (remote : String) (su : Bool)
    (l : List Submodule) :
    (push_loop env remote su l).2.errOut = [] := by
  induction l with
  | nil => rfl
  | cons m rest ih =>
      rcases hbr : get_current_branch env m.path with _ | br <;>
        simp only [push_loop, hbr]
      · rfl
      · by_cases hbe : br = ""
        · rw [if_pos hbe]
          rfl
        · rw [if_neg hbe]
          rcases hres : (push_branch env m.path br remote su).1 with e | u <;>
            simp [hres, ih]

theorem update_parent_errOut (env : GitEnv) (root : String)
    (targets : List Submodule) :
    (handle_update_parent env root targets).2.errOut = [] := by
  unfold handle_update_parent
  dsimp only
  split
  · rfl
  · rcases hres : (update_parent env root (changed_submodules env targets)).1
      with e | u <;> simp [hres]

theorem create_merge_request_errOut (env : GitEnv) (tools : ToolEnv)
    (mrExec : List String → Int) (path branch target : String)
    (title : Option String) (draft : Bool) :
    ∀ l ∈ (create_merge_request env tools mrExec path branch target title draft).2.errOut,
      l = noCliMsg := by
  intro l hl
  unfold create_merge_request at hl
  dsimp only at hl
  split at hl
  · simp at hl
  · split at hl
    · simp only [List.mem_singleton] at hl
      exact hl
    · split at hl <;> split at hl <;> simp at hl

theorem mr_loop_errOut (env : GitEnv) (tools : ToolEnv)
    (mrExec : List String → Int) (target : String) (title : Option String)
    (draft : Bool) (l : List Submodule) :
    ∀ x ∈ (mr_loop env tools mrExec target title draft l).2.errOut,
      x = noCliMsg := by
  induction l with
  | nil => simp [mr_loop]
  | cons m rest ih =>
      intro x hx
      rcases hbr : get_current_branch env m.path with _ | br <;>
        simp only [mr_loop, hbr] at hx
      · simp [effGit_errOut] at hx
      · by_cases hbe : br = ""
        · rw [if_pos hbe] at hx
          simp [effGit_errOut] at hx
        · rw [if_neg hbe] at hx
          rcases hres : (create_merge_request env tools mrExec m.path br target title draft).1
            with e | u <;> simp only [hres] at hx <;>
            simp only [Effects_app_errOut, effGit_errOut, effOut_errOut,
              List.nil_append, List.append_nil, List.mem_append] at hx
          · exact create_merge_request_errOut env tools mrExec m.path br target
              title draft x hx
          · rcases hx with hx | hx
            · exact create_merge_request_errOut env tools mrExec m.path br target
                title draft x hx
            · exact ih x hx

theorem dispatch_errOut (env : GitEnv) (tools : ToolEnv)
    (mrExec : List String → Int) (root : String) (includeClean : Bool)
    (targets : List Submodule) (cmd : Command) :
    ∀ l ∈ (dispatch env tools mrExec root includeClean targets cmd).2.errOut,
      l = noCliMsg := by
  intro l hl
  cases cmd
  case status =>
      unfold dispatch handle_status at hl
      dsimp only at hl
      split at hl <;> split at hl <;> simp at hl
  case branch n b r f =>
      unfold dispatch handle_branch at hl
      dsimp only at hl
      split at hl
      · simp at hl
      · rw [branch_loop_errOut] at hl
        simp at hl
  case push r su =>
      unfold dispatch handle_push at hl
      dsimp only at hl
      split at hl
      · simp at hl
      · rw [push_loop_errOut] at hl
        simp at hl
  case mr t title draft =>
      unfold dispatch handle_mr at hl
      dsimp only at hl
      split at hl
      · simp at hl
      · exact mr_loop_errOut env tools mrExec t title draft _ l hl
  case updateParent =>
      unfold dispatch at hl
      rw [update_parent_errOut] at hl
      simp at hl

theorem main_body_errOut (env : GitEnv) (tools : ToolEnv)
    (mrExec : List String → Int) (root : String) (hasGitmodules : Bool)
    (sections : List ManifestSection) (includeClean : Bool)
    (names : Option (List String)) (cmd : Command) :
    ∀ l ∈ (main_body env tools mrExec root hasGitmodules sections includeClean
        names cmd).2.errOut, l = noCliMsg := by
  intro l hl
  unfold main_body at hl
  dsimp only at hl
  split at hl
  · simp at hl
  · split at hl
    · simp at hl
    · split at hl
      · simp at hl
      · exact dispatch_errOut env tools mrExec root includeClean _ cmd l hl

/-- Claim C8: when the body raises no workflow error the process exits 0;
when it raises one, the process exits 1 and the error stream is the body
stderr output followed by exactly one `Error: `-prefixed line carrying the
message (the only other stderr lines are the no-review-CLI suggestion,
which carries no `Error:` prefix); the exit code is always 0 or 1. -/
theorem main_exit_and_error_report (env : GitEnv) (tools : ToolEnv)
    (mrExec : List String → Int) (root : String) (hasGitmodules : Bool)
    (sections : List ManifestSection) (includeClean : Bool)
    (names : Option (List String)) (cmd : Command) :
    ((main_body env tools mrExec root hasGitmodules sections includeClean
        names cmd).1 = .ok () →
      (main_run env tools mrExec root hasGitmodules sections includeClean
          names cmd).exit = 0
      ∧ (main_run env tools mrExec root hasGitmodules sections includeClean
          names cmd).err
        = (main_body env tools mrExec root hasGitmodules sections includeClean
            names cmd).2.errOut)
    ∧ (∀ msg,
      (main_body env tools mrExec root hasGitmodules sections includeClean
          names cmd).1 = .error msg →
      (main_run env tools mrExec root hasGitmodules sections includeClean
          names cmd).exit = 1
      ∧ (main_run env tools mrExec root hasGitmodules sections includeClean
          names cmd).err
        = (main_body env tools mrExec root hasGitmodules sections includeClean
            names cmd).2.errOut ++ ["Error: " ++ msg])
    ∧ (∀ l ∈ (main_body env tools mrExec root hasGitmodules sections
        includeClean names cmd).2.errOut, l = noCliMsg)
    ∧ ((main_run env tools mrExec root hasGitmodules sections includeClean
          names cmd).exit = 0
      ∨ (main_run env tools mrExec root hasGitmodules sections includeClean
          names cmd).exit = 1) := by
  refine ⟨?_, ?_, main_body_errOut env tools mrExec root hasGitmodules sections
    includeClean names cmd, ?_⟩
  · intro hok
    unfold main_run
    dsimp only
    rw [hok]
    exact ⟨rfl, rfl⟩
  · intro msg hmsg
    unfold main_run
    dsimp only
    rw [hmsg]
    exact ⟨rfl, rfl⟩
  · unfold main_run
    dsimp only
    rcases hres : (main_body env tools mrExec root hasGitmodules sections
        includeClean names cmd).1 with e | u
    · right; rfl
    · left; rfl

/-- Claim C9: for every manifest that parses to zero submodule entries,
every subcommand prints the no-submodules report, exits 0 and issues no
git or review-tool command. -/
theorem empty_manifest_noop (env : GitEnv) (tools : ToolEnv)
    (mrExec : List String → Int) (root : String)
    (sections : List ManifestSection) (includeClean : Bool)
    (names : Option (List String)) (cmd : Command)
    (h : load_submodules root sections = []) :
    main_run env tools mrExec root true sections includeClean names cmd
      = ⟨0, ["No submodules registered in .gitmodules."], [], [], []⟩ := by
  unfold main_run main_body
  dsimp only
  rw [if_neg (by simp), if_pos h]
  rfl

/-- Claim C4, amended: for every registry with AT LEAST ONE entry and
every explicit target-name list with an unknown name, the run fails with
the workflow error naming the unknown submodules (in the order given),
prints nothing to stdout, executes no git and no review-tool command, and
exits 1.  The claim as stated over every registry is false: with an empty
registry the run exits 0 before target resolution (see the
counterexample). -/
theorem unknown_names_fail (env : GitEnv) (tools : ToolEnv)
    (mrExec : List String → Int) (root : String)
    (sections : List ManifestSection) (includeClean : Bool)
    (names : List String) (cmd : Command)
    (hsubs : load_submodules root sections ≠ [])
    (hmiss : names.filter (fun n =>
        !((load_submodules root sections).any (fun s => s.name = n))) ≠ []) :
    main_run env tools mrExec root true sections includeClean (some names) cmd
      = ⟨1, [],
          ["Error: Unknown submodule(s): "
            ++ joinWith ", " (names.filter (fun n =>
                !((load_submodules root sections).any (fun s => s.name = n))))],
          [], []⟩ := by
  have hne : names ≠ [] := by
    intro h
    subst h
    simp at hmiss
  unfold main_run main_body resolve_targets
  dsimp only
  rw [if_neg (by simp), if_neg hsubs]
  rw [if_neg hne, if_pos hmiss]
  rfl

@[simp] theorem gitStep_head_world (w : RepoState) (p : String) :
    (gitStep w (headCmd p)).2 = w := rfl

@[simp] theorem gitStep_verify_world (w : RepoState) (p b : String) :
    (gitStep w (verifyCmd p b)).2 = w := by
  simp only [gitStep, verifyCmd]
  split <;> rfl

@[simp] theorem gitStep_status_world (w : RepoState) (p : String) :
    (gitStep w (statusCmd p)).2 = w := rfl

@[simp] theorem gitStep_fetch_world (w : RepoState) (p r b : String) :
    (gitStep w (fetchCmd p r b)).2 = w := rfl

@[simp] theorem gitStep_pull_world (w : RepoState) (p r b : String) :
    (gitStep w (pullCmd p r b)).2 = w := rfl

theorem ensure_branch_on_current (w : RepoState) (path branch : String)
    (base : Option String) (remote : String) (force : Bool)
    (hcur : currentBranchOf (gitStep w (headCmd path)).1 = some branch) :
    ensure_branch gitStep w path branch base remote force
      = ⟨.ok branch, w, [headCmd path]⟩ := by
  unfold ensure_branch
  dsimp only
  rw [if_pos hcur]
  rfl

theorem finishCreate_current (u : RepoState) (path branch : String)
    (force : Bool) (t : List GitCmd)
    (hok : (finishCreate gitStep u path branch force t).result = .ok branch) :
    (finishCreate gitStep u path branch force t).world.current = some branch := by
  unfold finishCreate at hok ⊢
  dsimp only at hok ⊢
  cases force
  · by_cases h3 : branch ∈ u.branches
    · have hrc : (gitStep u (createCmd path branch false)).1.returncode ≠ 0 := by
        simp [gitStep, createCmd, h3]
      rw [if_pos hrc] at hok
      simp at hok
    · have h0 : (gitStep u (createCmd path branch false)).1.returncode = 0 := by
        simp [gitStep, createCmd, h3]
      rw [if_neg (by simp [h0])]
      simp [gitStep, createCmd, h3]
  · have h0 : (gitStep u (createCmd path branch true)).1.returncode = 0 := by
      simp [gitStep, createCmd]
    rw [if_neg (by simp [h0])]
    simp [gitStep, createCmd]

theorem ensure_branch_final_current (w : RepoState) (path branch : String)
    (base : Option String) (remote : String) (force : Bool)
    (hclean : w.dirty = false) (htrim : pyStrip branch = branch)
    (hhead : branch ≠ "HEAD")
    (hok : (ensure_branch gitStep w path branch base remote force).result
      = .ok branch) :
    currentBranchOf
      (gitStep (ensure_branch gitStep w path branch base remote force).world
        (headCmd path)).1 = some branch := by
  have hcb : ∀ u : RepoState, u.current = some branch →
      currentBranchOf (gitStep u (headCmd path)).1 = some branch := by
    intro u hu
    simp [gitStep, headCmd, currentBranchOf, hu, htrim, hhead]
  by_cases h1 : currentBranchOf (gitStep w (headCmd path)).1 = some branch
  · rw [ensure_branch_on_current w path branch base remote force h1]
    exact h1
  · unfold ensure_branch at hok ⊢
    dsimp only at hok ⊢
    rw [if_neg h1] at hok ⊢
    simp only [gitStep_head_world, gitStep_verify_world, gitStep_status_world,
      gitStep_fetch_world, gitStep_pull_world] at hok ⊢
    by_cases h2 : branch ∈ w.branches
    · have hver : (gitStep w (verifyCmd path branch)).1.returncode = 0 := by
        simp [gitStep, verifyCmd, h2]
      rw [if_pos hver] at hok ⊢
      have hco : (gitStep w (checkoutCmd path branch)).1.returncode = 0 := by
        simp [gitStep, checkoutCmd, h2]
      rw [if_neg (by simp [hco])] at hok ⊢
      apply hcb
      simp [gitStep, checkoutCmd, h2]
    · have hver : ¬(gitStep w (verifyCmd path branch)).1.returncode = 0 := by
        simp [gitStep, verifyCmd, h2]
      rw [if_neg hver] at hok ⊢
      have hst : statusLinesOf (gitStep w (statusCmd path)).1 = [] := by
        simp [gitStep, statusCmd, hclean, statusLinesOf, nonblankLines,
          pyLines, linesAux, pyStrip]
      rcases base with _ | b
      · dsimp only at hok ⊢
        exact hcb _ (finishCreate_current _ path branch force _ hok)
      · dsimp only at hok ⊢
        by_cases hb : b = ""
        · rw [if_neg (by simp [hb])] at hok ⊢
          exact hcb _ (finishCreate_current _ path branch force _ hok)
        · rw [if_pos ⟨hb, hst⟩] at hok ⊢
          by_cases hbb : b ∈ w.branches
          · have hcoB : (gitStep w (checkoutCmd path b)).1.returncode = 0 := by
              simp [gitStep, checkoutCmd, hbb]
            rw [if_neg (by simp [hcoB])] at hok ⊢
            exact hcb _ (finishCreate_current _ path branch force _ hok)
          · have hcoB : (gitStep w (checkoutCmd path b)).1.returncode ≠ 0 := by
              simp [gitStep, checkoutCmd, hbb]
            rw [if_pos hcoB] at hok
            simp at hok

/-- Claim C10: `ensure_branch` is idempotent.  Under the `gitStep` model of
the external git commands, after a successful call on a clean checkout a
second call with the same arguments finds the repository already on the
requested branch and performs no git mutation: it returns success, leaves
the state unchanged and issues only the read-only branch query. -/
theorem ensure_branch_idempotent (w : RepoState) (path branch : String)
    (base : Option String) (remote : String) (force : Bool)
    (hclean : w.dirty = false) (htrim : pyStrip branch = branch)
    (hhead : branch ≠ "HEAD")
    (hok : (ensure_branch gitStep w path branch base remote force).result
      = .ok branch) :
    ensure_branch gitStep
        (ensure_branch gitStep w path branch base remote force).world
        path branch base remote force
      = ⟨.ok branch,
         (ensure_branch gitStep w path branch base remote force).world,
         [headCmd path]⟩ :=
  ensure_branch_on_current _ path branch base remote force
    (ensure_branch_final_current w path branch base remote force hclean htrim
      hhead hok)

/-!  Concrete oracles and inputs used to witness the theorems above on
evaluable instances.  -/

/-- A concrete status oracle: `r/dirty` has one modified file, the status
query on `r/broken` fails (not a repository), every other path is clean. -/
def envScan : GitEnv := fun p _ =>
  if p = "r/dirty" then ⟨0, " M f", ""⟩
  else if p = "r/broken" then ⟨1, "ignored", "fatal: not a git repository"⟩
  else ⟨0, "", ""⟩

/-- Three registered submodules over `envScan`: clean, dirty, broken. -/
def subsScan : List Submodule :=
  [⟨"a", "r/clean"⟩, ⟨"b", "r/dirty"⟩, ⟨"c", "r/broken"⟩]

/-- Oracle of a repository already on branch `feat`. -/
def envOnFeat : GitEnv := fun _ args =>
  match args with
  | ["rev-parse", "--abbrev-ref", "HEAD"] => ⟨0, "feat", ""⟩
  | _ => ⟨0, "", ""⟩

/-- Oracle where the branch-creating checkout fails with diagnostic
`boom`. -/
def envCoFail : GitEnv := fun _ args =>
  match args with
  | ["rev-parse", "--abbrev-ref", "HEAD"] => ⟨0, "main", ""⟩
  | ["rev-parse", "--verify", _] => ⟨1, "", "fatal: needed a single revision"⟩
  | ["status", "--porcelain"] => ⟨0, "", ""⟩
  | ["checkout", _, _] => ⟨1, "", "boom"⟩
  | _ => ⟨0, "", ""⟩

/-- Oracle where the fetch of the base branch fails while every checkout
succeeds. -/
def envFetchFail : GitEnv := fun _ args =>
  match args with
  | ["rev-parse", "--abbrev-ref", "HEAD"] => ⟨0, "main", ""⟩
  | ["rev-parse", "--verify", _] => ⟨1, "", "fatal: needed a single revision"⟩
  | ["status", "--porcelain"] => ⟨0, "", ""⟩
  | ["fetch", _, _] => ⟨1, "", "fatal: could not fetch"⟩
  | _ => ⟨0, "", ""⟩

/-- Oracle where every repository is dirty, `r/det` is in detached HEAD,
every other repository is on `main`, and pushes succeed. -/
def envPush : GitEnv := fun p args =>
  match args with
  | ["status", "--porcelain"] => ⟨0, " M f", ""⟩
  | ["rev-parse", "--abbrev-ref", "HEAD"] =>
      if p = "r/det" then ⟨0, "HEAD", ""⟩ else ⟨0, "main", ""⟩
  | _ => ⟨0, "", ""⟩

/-- A one-entry manifest declaring `lib` at `vendor/lib`. -/
def sectionsW : List ManifestSection :=
  [⟨"submodule \x22lib\x22", some "vendor/lib"⟩]

/-- A repository state on `main` with a clean tree. -/
def repoW : RepoState := ⟨["main"], some "main", false⟩

/-- Witness for C1: over `envScan` only the dirty entry is returned, and
the failing status query on `r/broken` yields no lines. -/
theorem changed_submodules_dirty_witness :
    changed_submodules envScan subsScan = [⟨"b", "r/dirty"⟩]
    ∧ git_status_lines envScan "r/broken" = [] := by
  refine ⟨?_, (changed_submodules_dirty envScan subsScan).2.1 "r/broken"
    (by decide)⟩
  rw [(changed_submodules_dirty envScan subsScan).1]
  decide

/-- Witness for C2: on a repository already on `feat`, `ensure_branch`
issues only the branch query and succeeds. -/
theorem ensure_branch_case_order_witness :
    ensure_branch oracleStep envOnFeat "s" "feat" none "origin" false
      = ⟨.ok "feat", envOnFeat, [headCmd "s"]⟩ :=
  (ensure_branch_case_order envOnFeat "s" "feat" none "origin" false).1
    (by decide)

/-- Witness for C3 (amended): when the branch-creating checkout fails with
diagnostic `boom`, the run ends in that failing checkout and the raised
error carries `boom`. -/
theorem ensure_branch_checked_fail_witness :
    ∃ c, (ensure_branch oracleStep envCoFail "s" "feat" none "origin"
          false).trace.getLast? = some c
      ∧ c.dir = "s" ∧ c.args.head? = some "checkout"
      ∧ (envCoFail c.dir c.args).returncode ≠ 0
      ∧ "boom" = diagnostic (envCoFail c.dir c.args) :=
  (ensure_branch_checked_fail envCoFail "s" "feat" none "origin" false).1
    "boom" rfl

/-- Counterexample to C3 as stated: the `fetch` of the base branch exits
non-zero, the command was issued, and yet `ensure_branch` returns success
instead of raising a workflow error. -/
theorem ensure_branch_unchecked_fetch_cex :
    (envFetchFail "s" ["fetch", "origin", "dev"]).returncode ≠ 0
    ∧ fetchCmd "s" "origin" "dev"
        ∈ (ensure_branch oracleStep envFetchFail "s" "feat" (some "dev")
            "origin" false).trace
    ∧ (ensure_branch oracleStep envFetchFail "s" "feat" (some "dev") "origin"
          false).result = .ok "feat" :=
  ⟨by decide, by decide, rfl⟩

/-- Witness for C4 (amended): a one-entry registry with the unknown
explicit name `ghost` exits 1 with the error naming `ghost` and no
command executed. -/
theorem unknown_names_fail_witness :
    main_run envScan ⟨false, false⟩ (fun _ => 0) "r" true sectionsW false
        (some ["ghost"]) Command.status
      = ⟨1, [], ["Error: Unknown submodule(s): ghost"], [], []⟩ :=
  (unknown_names_fail envScan ⟨false, false⟩ (fun _ => 0) "r" sectionsW false
    ["ghost"] Command.status (by decide) (by decide)).trans (by decide)

/-- Counterexample to C4 as stated: with an EMPTY registry and the unknown
explicit name `ghost`, the run does not fail at all: it exits 0 on the
no-submodules path with no error reported. -/
theorem unknown_names_cex :
    main_run envScan ⟨false, false⟩ (fun _ => 0) "r" true [] false
        (some ["ghost"]) Command.status
      = ⟨0, ["No submodules registered in .gitmodules."], [], [], []⟩
    ∧ ¬ ∃ s ∈ load_submodules "r" ([] : List ManifestSection),
        s.name = "ghost" :=
  ⟨by decide, by decide⟩

/-- Witness for C5: the explicitly named but clean submodule `a` is not in
the dirty set the handlers iterate over. -/
theorem handlers_touch_only_dirty_witness :
    (⟨"a", "r/clean"⟩ : Submodule) ∉ changed_submodules envScan subsScan :=
  (handlers_touch_only_dirty envScan ⟨false, false⟩ (fun _ => 0) "r" subsScan
    "feat" none "origin" false false false "main" none ⟨"a", "r/clean"⟩
    (by decide) (by decide)).1

/-- Witness for C6: with a dirty pushed target followed by a dirty
detached target, `handle_push` fails naming the detached target. -/
theorem push_detached_aborts_witness :
    (handle_push envPush [⟨"x", "r/x"⟩, ⟨"d", "r/det"⟩] "origin" false).1
      = .error (detachedMsg "d") :=
  (push_detached_aborts envPush [⟨"x", "r/x"⟩, ⟨"d", "r/det"⟩] "origin" false
    [⟨"x", "r/x"⟩] [] ⟨"d", "r/det"⟩ (by decide)
    (by
      intro y hy
      have hyx : y = ⟨"x", "r/x"⟩ := by simpa using hy
      subst hyx
      exact ⟨"main", by decide, by decide, by decide⟩)
    (by decide)).1

/-- Witness for C7: a gitlab-hosted URL with `glab` absent and `gh`
present falls back to `gh`. -/
theorem mr_tool_selection_witness :
    detect_mr_tool ⟨false, true⟩ "https://gitlab.example.com/g/p" = some "gh" :=
  (mr_tool_selection envScan ⟨false, true⟩ (fun _ => 0)
    "https://gitlab.example.com/g/p" "p" "b" "main" none false).2.2.2.1
    rfl rfl

/-- Witness for C8: a missing manifest raises the configuration error,
which is printed once with the `Error:` prefix and makes the process
exit 1. -/
theorem main_exit_and_error_report_witness :
    (main_run envScan ⟨false, false⟩ (fun _ => 0) "r" false [] false none
        Command.status).exit = 1
    ∧ (main_run envScan ⟨false, false⟩ (fun _ => 0) "r" false [] false none
        Command.status).err = ["Error: " ++ ensureRepoMsg "r"] := by
  have h := (main_exit_and_error_report envScan ⟨false, false⟩ (fun _ => 0)
    "r" false [] false none Command.status).2.1 (ensureRepoMsg "r") rfl
  exact ⟨h.1, h.2.trans (by decide)⟩

/-- Witness for C9: a manifest whose only section carries no path parses
to zero submodules; the run reports this and exits 0 with no commands. -/
theorem empty_manifest_noop_witness :
    main_run envScan ⟨false, false⟩ (fun _ => 0) "r" true [⟨"core", none⟩]
        false none Command.status
      = ⟨0, ["No submodules registered in .gitmodules."], [], [], []⟩ :=
  empty_manifest_noop envScan ⟨false, false⟩ (fun _ => 0) "r" [⟨"core", none⟩]
    false none Command.status (by decide)

/-- Witness for C10: after creating `feat` from a clean checkout of `main`,
a second `ensure_branch` call is a no-op issuing only the branch query. -/
theorem ensure_branch_idempotent_witness :
    ensure_branch gitStep
        (ensure_branch gitStep repoW "s" "feat" none "origin" false).world
        "s" "feat" none "origin" false
      = ⟨.ok "feat",
         (ensure_branch gitStep repoW "s" "feat" none "origin" false).world,
         [headCmd "s"]⟩ :=
  ensure_branch_idempotent repoW "s" "feat" none "origin" false (by decide)
    (by decide) (by decide) rfl

end Ape
